import Mathlib

/-!
# Verification of the subject-verb agreement analyzer

A shallow embedding of `src/anonymization_verification/conjugations.py`
(functions `CorrectConjugations.find_faulty_conjugation`,
`CorrectConjugations._detect_subject_and_verb`,
`CorrectConjugations._split_by_sentences`, the module-level `PRONOUNS`
catalog and the `SubjectVerbPair` dataclass), together with theorems that
settle the specification's claims about it.

Strings are embedded as Lean `String` (a list of characters); Python string
primitives that the code uses (`str.split`, `str.split("/")`, `str.lower`,
negative indexing, the `in` substring test) are given bespoke structurally
recursive definitions so that every theorem below can be evaluated by the
kernel.  Character classes of the regular expression in
`_split_by_sentences` (`\s`, `\w`, `[A-Z]`, `[a-z]`) are modelled over the
ASCII range, which is the range exercised by the program's vocabulary.

The external conjugation library (`mlconjug3`, an external collaborator per
the specification) is not part of the repository; it is modelled from the
spec as an abstract oracle `conjugate : String → List String` returning the
set of conjugated surface forms, with the membership test
`phrase in conjugated_forms` meaning "the phrase is a substring of some
member of the form set".
-/

/-- Python ASCII whitespace, the characters matched by `\s` (and the
characters `str.split()` splits on). -/
def isPySpace (c : Char) : Bool :=
  c = ' ' || c = '\t' || c = '\n' || c = '\r' || c = '\x0b' || c = '\x0c'

/-- Characters matched by the regex class `\w` (ASCII range): letters,
digits and underscore. -/
def isPyWord (c : Char) : Bool :=
  c.isAlphanum || c = '_'

/-- The regex class `[A-Z]`. -/
def isAsciiUpper (c : Char) : Bool :=
  'A' ≤ c && c ≤ 'Z'

/-- The regex class `[a-z]`. -/
def isAsciiLower (c : Char) : Bool :=
  'a' ≤ c && c ≤ 'z'

/-- Python `str.lower()` (ASCII range). -/
def pyLower (s : String) : String :=
  String.mk (s.data.map Char.toLower)

/-- Helper for splitting on a single separator character, Python
`str.split(sep)` semantics: every occurrence of the separator produces a
boundary and empty pieces are kept. -/
def splitOnCharAux (sep : Char) : List Char → List Char → List String
  | [], cur => [String.mk cur]
  | x :: xs, cur =>
      if x = sep then String.mk cur :: splitOnCharAux sep xs []
      else splitOnCharAux sep xs (cur ++ [x])

/-- Python `s.split("/")`, as used on compound subjects and verbs. -/
def splitSlash (s : String) : List String :=
  splitOnCharAux '/' s.data []

/-- Helper for Python whitespace splitting: split at every whitespace
character, keeping empty pieces (they are filtered away in `pyWords`). -/
def pySplitWsAux : List Char → List Char → List String
  | [], cur => [String.mk cur]
  | x :: xs, cur =>
      if isPySpace x then String.mk cur :: pySplitWsAux xs []
      else pySplitWsAux xs (cur ++ [x])

/-- Python `sentence.split()` (no argument): split on runs of whitespace,
discarding empty tokens. -/
def pyWords (s : String) : List String :=
  (pySplitWsAux s.data []).filter (fun w => w ≠ "")

/-- Python list indexing `l[i]` with an `int` index: negative indices count
from the end of the list; a still-out-of-range index yields no value
(Python raises `IndexError`). -/
def pyIndex (l : List String) (i : Int) : Option String :=
  if i < 0 then
    if (l.length : Int) + i < 0 then none else l.get? ((l.length : Int) + i).toNat
  else l.get? i.toNat

/-- Python `"/".join(pieces)` (also used for a general separator). -/
def pyJoin (sep : String) : List String → String
  | [] => ""
  | [x] => x
  | x :: xs => x ++ sep ++ pyJoin sep xs

/-- All length-`r` permutations of the elements of a list, in the order
`itertools.permutations` produces them: the first element is chosen left to
right, then the remaining positions are filled from the list with that
element removed. `selections l` enumerates each element together with the
rest of the list. -/
def selections : List String → List (String × List String)
  | [] => []
  | x :: xs => (x, xs) :: (selections xs).map (fun p => (p.1, x :: p.2))

/-- `itertools.permutations(l, r)`: all ordered arrangements of `r` distinct
positions of `l`. -/
def permsOfLen : Nat → List String → List (List String)
  | 0, _ => [[]]
  | r + 1, l => (selections l).flatMap (fun p => (permsOfLen r p.2).map (fun q => p.1 :: q))

/-- The base pronoun set literal of `conjugations.py` lines 8-16 (a Python
set; embedded as a list, membership being the only operation used). -/
def basePronouns : List String :=
  ["I", "you", "he", "she", "we", "they", "it"]

/-- The tuple `permutation_pronouns` of line 19. -/
def permutation_pronouns : List String :=
  ["he", "she", "they", "it"]

/-- The module-level `PRONOUNS` catalog after the loop of lines 20-23 has
run: the base set plus, for each length `ii` in `range(2, 5)`, every
permutation of `permutation_pronouns` of that length joined with `"/"`.
Computed once at module load in the source; a single top-level constant
here. -/
def PRONOUNS : List String :=
  basePronouns ++
    (List.range' 2 3).flatMap
      (fun ii => (permsOfLen ii permutation_pronouns).map (fun p => pyJoin "/" p))

/-- The membership test of line 134, `subject.lower() in PRONOUNS`, which
realizes the spec's `PronounCatalog.is_pronoun` contract. -/
def is_pronoun (token : String) : Bool :=
  PRONOUNS.contains (pyLower token)

/-- The `SubjectVerbPair` dataclass (lines 26-60). -/
structure SubjectVerbPair where
  subject : String
  verb : String
  is_question : Bool
deriving DecidableEq, Repr

/-- The `phrase` property (lines 44-60): `"{verb} {subject}"` for a
question, `"{subject} {verb}"` otherwise. -/
def SubjectVerbPair.phrase (p : SubjectVerbPair) : String :=
  if p.is_question then p.verb ++ " " ++ p.subject
  else p.subject ++ " " ++ p.verb

/-- Failure conditions of the embedded Python code: `indexError` models an
out-of-range sequence index, `valueError` the `ValueError` raised by
`_detect_subject_and_verb`. -/
inductive PyErr where
  | indexError : PyErr
  | valueError : String → PyErr
deriving DecidableEq, Repr

deriving instance DecidableEq for Except

/-- The `ValueError("No subject found.")` of line 141, the spec's
`NoSubjectFound` condition. -/
def noSubjectErr : PyErr :=
  PyErr.valueError "No subject found."

/-- The loop of lines 133-137 over `enumerate(words)`.  `words` is the full
token list (needed for indexing), `l` the tokens not yet visited (the
suffix of `words` from position `idx`), `acc` the `pairings` accumulator.
For each token whose lowercase form is in `PRONOUNS` the verb is
`words[index - 1]` for a question and `words[index + 1]` otherwise, with
Python `int` indexing; an out-of-range access aborts with `indexError`.
After the loop, an empty `pairings` list raises `ValueError` (line 141). -/
def detectLoop (words : List String) (q : Bool) :
    Nat → List String → List SubjectVerbPair → Except PyErr (List SubjectVerbPair)
  | _, [], acc => if acc.isEmpty then .error noSubjectErr else .ok acc
  | idx, w :: rest, acc =>
      if PRONOUNS.contains (pyLower w) then
        match (if q then pyIndex words ((idx : Int) - 1) else pyIndex words ((idx : Int) + 1)) with
        | none => .error .indexError
        | some verb => detectLoop words q (idx + 1) rest (acc ++ [⟨w, verb, q⟩])
      else detectLoop words q (idx + 1) rest acc

/-- `CorrectConjugations._detect_subject_and_verb` (lines 117-141).
`sentence[-1]` on the empty string is an out-of-range access
(`indexError`); otherwise `is_question` is whether the final character is
`?` and the word loop runs. -/
def detect_subject_and_verb (sentence : String) : Except PyErr (List SubjectVerbPair) :=
  match sentence.data.getLast? with
  | none => .error .indexError
  | some c =>
      let words := pyWords sentence
      detectLoop words (c = '?') 0 words []

/-- The split condition of the regex
`(?<!\w\.\w.)(?<![A-Z][a-z]\.)(?<=\.|\?|\n)\s` at position `p` of the
character list `cs`: the character at `p` is whitespace, the character
before it is `.`, `?` or a newline, and neither negative lookbehind
matches.  The first lookbehind's final `.` matches any character except a
newline. -/
def splitCond (cs : List Char) (p : Nat) : Bool :=
  decide (p < cs.length) && decide (1 ≤ p)
  && isPySpace (cs.getD p ' ')
  && (cs.getD (p - 1) ' ' = '.' || cs.getD (p - 1) ' ' = '?' || cs.getD (p - 1) ' ' = '\n')
  && !(decide (4 ≤ p) && isPyWord (cs.getD (p - 4) ' ') && cs.getD (p - 3) ' ' = '.'
        && isPyWord (cs.getD (p - 2) ' ') && cs.getD (p - 1) ' ' ≠ '\n')
  && !(decide (3 ≤ p) && isAsciiUpper (cs.getD (p - 3) ' ') && isAsciiLower (cs.getD (p - 2) ' ')
        && cs.getD (p - 1) ' ' = '.')

/-- Left-to-right scan of `re.split`: `cs` is the whole text, `p` the
current position, `l` the remaining suffix (`cs.drop p`), `cur` the
characters of the segment being built.  A position satisfying `splitCond`
ends the current segment and its (single whitespace) character is
consumed. -/
def splitAux (cs : List Char) : Nat → List Char → List Char → List String
  | _, [], cur => [String.mk cur]
  | p, c :: rest, cur =>
      if splitCond cs p then String.mk cur :: splitAux cs (p + 1) rest []
      else splitAux cs (p + 1) rest (cur ++ [c])

/-- `CorrectConjugations._split_by_sentences` (lines 143-153):
`re.split(r"(?<!\w\.\w.)(?<![A-Z][a-z]\.)(?<=\.|\?|\n)\s", text)`.  Because
every match of the pattern is a single character and the lookbehinds read
the original text, the split points are exactly the positions satisfying
`splitCond`. -/
def split_by_sentences (text : String) : List String :=
  splitAux text.data 0 text.data []

/-- Boolean prefix test on character lists. -/
def listIsPrefixOf : List Char → List Char → Bool
  | [], _ => true
  | _ :: _, [] => false
  | a :: as, b :: bs => a = b && listIsPrefixOf as bs

/-- Boolean contiguous-sublist test on character lists. -/
def listIsInfixOf (a : List Char) : List Char → Bool
  | [] => a.isEmpty
  | b :: bs => listIsPrefixOf a (b :: bs) || listIsInfixOf a bs

/-- The Python substring test `a in b` for strings. -/
def pySubstr (a b : String) : Bool :=
  listIsInfixOf a.data b.data

/-- Membership of a candidate phrase in a `ConjugatedFormSet`.  Modelled
from the spec: the oracle's form set is opaque beyond membership, and a
phrase is a member when it is a substring of some conjugated surface form
(spec §4.4 step 2c: substring match, not exact equality). -/
def phraseInForms (phrase : String) (forms : List String) : Bool :=
  forms.any (fun f => pySubstr phrase f)

/-- Normalization of one slash-split subject token (lines 100-101): a token
whose lowercase form is `he`, `she` or `it` becomes the class string
`"he/she/it"`. -/
def normalizeSubject (subject : String) : String :=
  if pyLower subject = "he" || pyLower subject = "she" || pyLower subject = "it" then
    "he/she/it"
  else subject

/-- Validation of one slash-split subject token against the pair's verb
(lines 95-112): the verb is split on `/` into surface forms, the oracle is
queried once per form (`verb_conjugators`), the candidate phrases are
`"{subject.lower()} {form.lower()}"` for every surface form, and the token
is valid when any candidate phrase occurs in any queried form set. -/
def subjectTokenValid (conjugate : String → List String) (verbToken t : String) : Bool :=
  let verbs := splitSlash verbToken
  let subj := normalizeSubject t
  let phrases := verbs.map (fun cv => pyLower subj ++ " " ++ pyLower cv)
  (verbs.map conjugate).any (fun forms => phrases.any (fun ph => phraseInForms ph forms))

/-- The subject loop of lines 99-114 for one pair: tokens are checked left
to right; the first invalid token flags the pair (`break`), so the value is
`true` (faulty) exactly when checking reached an invalid token. -/
def checkSubjects (conjugate : String → List String) (verbToken : String) :
    List String → Bool
  | [] => false
  | t :: ts =>
      if subjectTokenValid conjugate verbToken t then checkSubjects conjugate verbToken ts
      else true

/-- `set.add`: the faulty-phrase set is embedded as a duplicate-free list. -/
def setAdd (s : List String) (x : String) : List String :=
  if x ∈ s then s else s ++ [x]

/-- The pair loop of lines 94-114: each detected pair whose subject-token
check fails contributes its `phrase` to the `faulty_conjugations` set. -/
def processPairs (conjugate : String → List String) :
    List String → List SubjectVerbPair → List String
  | acc, [] => acc
  | acc, p :: ps =>
      processPairs conjugate
        (if checkSubjects conjugate p.verb (splitSlash p.subject) then setAdd acc p.phrase
         else acc) ps

/-- The sentence loop of lines 90-115: each sentence is passed to
`_detect_subject_and_verb`; an exception raised there propagates out of
`find_faulty_conjugation` immediately. -/
def findFaultyLoop (conjugate : String → List String) :
    List String → List String → Except PyErr (List String)
  | [], acc => .ok acc
  | s :: rest, acc =>
      match detect_subject_and_verb s with
      | .error e => .error e
      | .ok pairs => findFaultyLoop conjugate rest (processPairs conjugate acc pairs)

/-- `CorrectConjugations.find_faulty_conjugation` (lines 79-115),
parametrized by the external conjugation oracle. -/
def find_faulty_conjugation (conjugate : String → List String) (text : String) :
    Except PyErr (List String) :=
  findFaultyLoop conjugate (split_by_sentences text) []

/-- A degenerate oracle with no conjugated forms, used to instantiate
oracle-parametric theorems at concrete inputs. -/
def emptyOracle : String → List String := fun _ => []

/-- A concrete deterministic oracle: the single conjugated form
`"they is"` for the query `"is"`, nothing for any other query. -/
def oracleTheyIs : String → List String :=
  fun v => if v = "is" then ["they is"] else []

/-- Reconstruction of a text from sentence segments and the single
separator characters removed between consecutive segments. -/
def glue : List String → List Char → List Char
  | [], _ => []
  | s :: _, [] => s.data
  | s :: rest, c :: seps => s.data ++ c :: glue rest seps

/-- The adjacency property asserted by the specification for a pair
extracted from a sentence: the subject occurs at some position `i` of the
whitespace word sequence, its lowercase form is in the catalog, and the
verb is the token at position `i - 1` for a question (so `i ≥ 1`) and at
position `i + 1` otherwise. -/
def specAdjacent (sentence : String) (p : SubjectVerbPair) : Bool :=
  let words := pyWords sentence
  (List.range words.length).any (fun i =>
    (words.getD i "" = p.subject) && PRONOUNS.contains (pyLower p.subject) &&
      (if p.is_question then decide (1 ≤ i) && (words.getD (i - 1) "" = p.verb)
       else decide (i + 1 < words.length) && (words.getD (i + 1) "" = p.verb)))

/-- Adjacency of a pair in a word sequence, as the code establishes it:
the subject occurs at some position `i` with its lowercase form in the
catalog, and the verb is the word at `i - 1` for a question — except that a
question whose subject is the first word takes the **last** word (Python
negative indexing of `words[index - 1]` at `index = 0`) — and the word at
`i + 1` for a statement. -/
def adjacentInWords (words : List String) (p : SubjectVerbPair) : Prop :=
  ∃ i : Nat, words.get? i = some p.subject ∧
    PRONOUNS.contains (pyLower p.subject) = true ∧
    (if p.is_question then
       (if i = 0 then words.getLast? = some p.verb
        else words.get? (i - 1) = some p.verb)
     else words.get? (i + 1) = some p.verb)

/-- The adjacency property the code actually establishes for every pair it
returns from a sentence. -/
def pythonAdjacent (sentence : String) (p : SubjectVerbPair) : Prop :=
  adjacentInWords (pyWords sentence) p

/-- A sentence with no token whose lowercase form is in the pronoun
catalog. -/
def noPronounToken (sentence : String) : Prop :=
  ∀ w ∈ pyWords sentence, PRONOUNS.contains (pyLower w) = false

example : pyWords "We are an extensive test." = ["We", "are", "an", "extensive", "test."] := by
  decide

example : splitSlash "is/" = ["is", ""] := by decide

example : detect_subject_and_verb "We are an extensive test." =
    .ok [⟨"We", "are", false⟩] := by decide

example : detect_subject_and_verb "Are they allowed?" = .ok [⟨"they", "Are", true⟩] := by decide

example : detect_subject_and_verb "He is allowed and she is allowed." =
    .ok [⟨"He", "is", false⟩, ⟨"she", "is", false⟩] := by decide

example : split_by_sentences "This is a test. This is a test." =
    ["This is a test.", "This is a test."] := by decide

example : split_by_sentences "Is this a test? You bet it is." =
    ["Is this a test?", "You bet it is."] := by decide

example : split_by_sentences "This is a test.\nYou bet it is." =
    ["This is a test.", "You bet it is."] := by decide

example : split_by_sentences "We are. " = ["We are.", ""] := by decide

example : detect_subject_and_verb "" = .error .indexError := by decide

example : detect_subject_and_verb "they are ok now?" = .ok [⟨"they", "now?", true⟩] := by
  decide

example : find_faulty_conjugation emptyOracle "We are." = .ok ["We are."] := by decide

/-! ## Helper lemmas -/

lemma listIsPrefixOf_iff : ∀ a b : List Char, listIsPrefixOf a b = true ↔ a <+: b
  | [], b => by simp [listIsPrefixOf]
  | _ :: _, [] => by simp [listIsPrefixOf]
  | a :: as, b :: bs => by
      simp [listIsPrefixOf, listIsPrefixOf_iff as bs, List.cons_prefix_cons]

lemma listIsInfixOf_iff (a : List Char) : ∀ b : List Char, listIsInfixOf a b = true ↔ a <:+: b
  | [] => by simp [listIsInfixOf, List.isEmpty_iff, List.infix_nil]
  | b :: bs => by
      simp [listIsInfixOf, listIsPrefixOf_iff, listIsInfixOf_iff a bs, List.infix_cons_iff]

/-- `pySubstr` is exactly contiguous-substring containment. -/
lemma pySubstr_iff (a b : String) : pySubstr a b = true ↔ a.data <:+: b.data :=
  listIsInfixOf_iff a.data b.data

/-- The subject loop flags a pair exactly when some slash-split subject
token is invalid. -/
lemma checkSubjects_eq_true_iff (conjugate : String → List String) (vb : String) :
    ∀ ts : List String,
      checkSubjects conjugate vb ts = true ↔
        ∃ t ∈ ts, subjectTokenValid conjugate vb t = false
  | [] => by simp [checkSubjects]
  | t :: ts => by
      by_cases h : subjectTokenValid conjugate vb t
      · simp [checkSubjects, h, checkSubjects_eq_true_iff conjugate vb ts]
      · simp only [Bool.not_eq_true] at h
        simp [checkSubjects, h]

lemma mem_setAdd_self (s : List String) (x : String) : x ∈ setAdd s x := by
  unfold setAdd
  by_cases h : x ∈ s <;> simp [h]

lemma mem_setAdd_of_mem (s : List String) (x y : String) (h : y ∈ s) : y ∈ setAdd s x := by
  unfold setAdd
  by_cases hx : x ∈ s <;> simp [hx, h]

lemma mem_processPairs_of_mem (conjugate : String → List String) (x : String) :
    ∀ (ps : List SubjectVerbPair) (acc : List String),
      x ∈ acc → x ∈ processPairs conjugate acc ps
  | [], acc, h => h
  | p :: ps, acc, h => by
      unfold processPairs
      by_cases hc : checkSubjects conjugate p.verb (splitSlash p.subject)
      · simp only [hc, if_true]
        exact mem_processPairs_of_mem conjugate x ps _ (mem_setAdd_of_mem _ _ _ h)
      · simp only [Bool.not_eq_true] at hc
        simp only [hc, Bool.false_eq_true, if_false]
        exact mem_processPairs_of_mem conjugate x ps _ h

lemma mem_processPairs (conjugate : String → List String) (p : SubjectVerbPair) :
    ∀ (ps : List SubjectVerbPair) (acc : List String),
      p ∈ ps → checkSubjects conjugate p.verb (splitSlash p.subject) = true →
        p.phrase ∈ processPairs conjugate acc ps
  | q :: ps, acc, hmem, hfaulty => by
      rcases List.mem_cons.mp hmem with hq | hq
      · subst hq
        unfold processPairs
        simp only [hfaulty, if_true]
        exact mem_processPairs_of_mem conjugate _ ps _ (mem_setAdd_self _ _)
      · unfold processPairs
        exact mem_processPairs conjugate p ps _ hq hfaulty

lemma findFaultyLoop_ok_mem (conjugate : String → List String) (x : String) :
    ∀ (sentences : List String) (acc res : List String),
      findFaultyLoop conjugate sentences acc = .ok res → x ∈ acc → x ∈ res
  | [], acc, res, hok, hmem => by
      unfold findFaultyLoop at hok
      cases hok
      exact hmem
  | s :: rest, acc, res, hok, hmem => by
      unfold findFaultyLoop at hok
      cases hdet : detect_subject_and_verb s with
      | error e => rw [hdet] at hok; cases hok
      | ok pairs =>
          rw [hdet] at hok
          exact findFaultyLoop_ok_mem conjugate x rest _ res hok
            (mem_processPairs_of_mem conjugate x pairs acc hmem)

/-- If a sentence of the list yields a faulty pair, the pair's phrase is in
a successful result. -/
lemma findFaultyLoop_mem (conjugate : String → List String) (p : SubjectVerbPair)
    (s : String) (pairs : List SubjectVerbPair) :
    ∀ (sentences : List String) (acc res : List String),
      s ∈ sentences → detect_subject_and_verb s = .ok pairs → p ∈ pairs →
      checkSubjects conjugate p.verb (splitSlash p.subject) = true →
      findFaultyLoop conjugate sentences acc = .ok res → p.phrase ∈ res
  | t :: rest, acc, res, hmem, hdet, hp, hfaulty, hok => by
      unfold findFaultyLoop at hok
      rcases List.mem_cons.mp hmem with hs | hs
      · subst hs
        rw [hdet] at hok
        exact findFaultyLoop_ok_mem conjugate p.phrase rest _ res hok
          (mem_processPairs conjugate p pairs acc hp hfaulty)
      · cases hdt : detect_subject_and_verb t with
        | error e => rw [hdt] at hok; cases hok
        | ok qs =>
            rw [hdt] at hok
            exact findFaultyLoop_mem conjugate p s pairs rest _ res hs hdet hp hfaulty hok

/-- A successful run of the sentence loop requires every sentence to have
extracted successfully. -/
lemma findFaultyLoop_ok_detect (conjugate : String → List String) :
    ∀ (sentences : List String) (acc res : List String),
      findFaultyLoop conjugate sentences acc = .ok res →
        ∀ s ∈ sentences, ∃ ps, detect_subject_and_verb s = .ok ps
  | [], _, _, _, s, hmem => absurd hmem (List.not_mem_nil s)
  | t :: rest, acc, res, hok, s, hmem => by
      unfold findFaultyLoop at hok
      cases hdt : detect_subject_and_verb t with
      | error e => rw [hdt] at hok; cases hok
      | ok qs =>
          rw [hdt] at hok
          rcases List.mem_cons.mp hmem with hs | hs
          · exact hs ▸ ⟨qs, hdt⟩
          · exact findFaultyLoop_ok_detect conjugate rest _ res hok s hs

/-- Every error of the sentence loop originates in subject detection. -/
lemma findFaultyLoop_error (conjugate : String → List String) (e : PyErr) :
    ∀ (sentences : List String) (acc : List String),
      findFaultyLoop conjugate sentences acc = .error e →
        ∃ s ∈ sentences, detect_subject_and_verb s = .error e
  | [], acc, h => by unfold findFaultyLoop at h; cases h
  | t :: rest, acc, h => by
      unfold findFaultyLoop at h
      cases hdt : detect_subject_and_verb t with
      | error e2 =>
          rw [hdt] at h
          cases h
          exact ⟨t, List.mem_cons_self t rest, hdt⟩
      | ok qs =>
          rw [hdt] at h
          obtain ⟨s, hs, hds⟩ := findFaultyLoop_error conjugate e rest _ h
          exact ⟨s, List.mem_cons_of_mem t hs, hds⟩

lemma pyIndex_nonneg (l : List String) (i : Int) (h : 0 ≤ i) :
    pyIndex l i = l.get? i.toNat := by
  unfold pyIndex
  rw [if_neg (by omega)]

lemma pyIndex_neg_one (l : List String) (hne : l ≠ []) : pyIndex l (-1) = l.getLast? := by
  have hlen : 1 ≤ l.length := List.length_pos.mpr hne
  unfold pyIndex
  rw [if_pos (by omega), if_neg (by omega), List.getLast?_eq_getElem?, List.get?_eq_getElem?]
  congr 1
  omega

/-- The `pairings` accumulator never turns a non-`NoSubjectFound` outcome
into one: once non-empty, the loop cannot end in `noSubjectErr`. -/
lemma detectLoop_ne_noSubject (words : List String) (q : Bool) :
    ∀ (l : List String) (idx : Nat) (acc : List SubjectVerbPair),
      acc ≠ [] → detectLoop words q idx l acc ≠ .error noSubjectErr
  | [], _, acc, hne => by
      unfold detectLoop
      rw [if_neg (by simpa [List.isEmpty_iff] using hne)]
      simp
  | w :: rest, idx, acc, hne => by
      unfold detectLoop
      by_cases hw : PRONOUNS.contains (pyLower w)
      · simp only [hw, if_true]
        cases hv : (if q then pyIndex words ((idx : Int) - 1)
            else pyIndex words ((idx : Int) + 1)) with
        | none => simp [noSubjectErr]
        | some verb =>
            exact detectLoop_ne_noSubject words q rest (idx + 1) _ (by simp)
      · simp only [Bool.not_eq_true] at hw
        simp only [hw, Bool.false_eq_true, if_false]
        exact detectLoop_ne_noSubject words q rest (idx + 1) acc hne

/-- A pronoun token among the remaining words rules out `noSubjectErr`. -/
lemma detectLoop_ne_noSubject_of_pronoun (words : List String) (q : Bool) :
    ∀ (l : List String) (idx : Nat) (acc : List SubjectVerbPair),
      (∃ w ∈ l, PRONOUNS.contains (pyLower w) = true) →
      detectLoop words q idx l acc ≠ .error noSubjectErr
  | [], _, _, hex => by simp at hex
  | w :: rest, idx, acc, hex => by
      unfold detectLoop
      by_cases hw : PRONOUNS.contains (pyLower w)
      · simp only [hw, if_true]
        cases hv : (if q then pyIndex words ((idx : Int) - 1)
            else pyIndex words ((idx : Int) + 1)) with
        | none => simp [noSubjectErr]
        | some verb =>
            exact detectLoop_ne_noSubject words q rest (idx + 1) _ (by simp)
      · simp only [Bool.not_eq_true] at hw
        simp only [hw, Bool.false_eq_true, if_false]
        obtain ⟨w2, hmem, hw2⟩ := hex
        rcases List.mem_cons.mp hmem with h2 | h2
        · subst h2; rw [hw] at hw2; cases hw2
        · exact detectLoop_ne_noSubject_of_pronoun words q rest (idx + 1) acc ⟨w2, h2, hw2⟩

/-- With no pronoun among the remaining words the loop just returns the
accumulator (raising `noSubjectErr` when it is empty). -/
lemma detectLoop_no_pronoun (words : List String) (q : Bool) :
    ∀ (l : List String) (idx : Nat) (acc : List SubjectVerbPair),
      (∀ w ∈ l, PRONOUNS.contains (pyLower w) = false) →
      detectLoop words q idx l acc =
        if acc.isEmpty then .error noSubjectErr else .ok acc
  | [], _, acc, _ => by unfold detectLoop; rfl
  | w :: rest, idx, acc, hall => by
      unfold detectLoop
      have hw := hall w (List.mem_cons_self w rest)
      simp only [hw, Bool.false_eq_true, if_false]
      exact detectLoop_no_pronoun words q rest (idx + 1) acc
        (fun w2 h2 => hall w2 (List.mem_cons_of_mem w h2))

/-- Every pair the word loop returns is adjacent, in the Python sense, in
the full word list. -/
lemma detectLoop_ok_adjacent (words : List String) (q : Bool) :
    ∀ (l : List String) (idx : Nat) (acc pairs : List SubjectVerbPair),
      List.drop idx words = l →
      (∀ p ∈ acc, adjacentInWords words p) →
      detectLoop words q idx l acc = .ok pairs →
      ∀ p ∈ pairs, adjacentInWords words p
  | [], _, acc, pairs, _, hacc, hok => by
      unfold detectLoop at hok
      by_cases hacc0 : acc.isEmpty
      · rw [if_pos hacc0] at hok; cases hok
      · rw [if_neg hacc0] at hok
        cases hok
        exact hacc
  | w :: rest, idx, acc, pairs, hdrop, hacc, hok => by
      have hidx : idx < words.length := by
        by_contra hge
        rw [List.drop_eq_nil_of_le (by omega)] at hdrop
        cases hdrop
      have hget : words.get? idx = some w := by
        rw [List.get?_eq_getElem?, ← List.head?_drop, hdrop]
        rfl
      have hdrop2 : List.drop (idx + 1) words = rest := by
        rw [← List.drop_drop 1 idx, hdrop]  -- may need orientation fix
        rfl
      unfold detectLoop at hok
      by_cases hw : PRONOUNS.contains (pyLower w)
      · simp only [hw, if_true] at hok
        cases hv : (if q then pyIndex words ((idx : Int) - 1)
            else pyIndex words ((idx : Int) + 1)) with
        | none => rw [hv] at hok; cases hok
        | some verb =>
            rw [hv] at hok
            refine detectLoop_ok_adjacent words q rest (idx + 1) _ pairs hdrop2 ?_ hok
            intro p hp
            rcases List.mem_append.mp hp with hp | hp
            · exact hacc p hp
            · have hpv : p = ⟨w, verb, q⟩ := by simpa using hp
              subst hpv
              refine ⟨idx, hget, hw, ?_⟩
              cases q with
              | false =>
                  simp only [if_neg (by simp : ¬ (false = true))]
                  rw [pyIndex_nonneg words ((idx : Int) + 1) (by omega)] at hv
                  have : ((idx : Int) + 1).toNat = idx + 1 := by omega
                  rw [this] at hv
                  exact hv
              | true =>
                  simp only [if_pos rfl]
                  by_cases hi0 : idx = 0
                  · subst hi0
                    rw [if_pos rfl]
                    have hne : words ≠ [] := by
                      intro hnil
                      rw [hnil] at hidx
                      simp at hidx
                    rw [show ((0 : Nat) : Int) - 1 = -1 by omega,
                      pyIndex_neg_one words hne] at hv
                    exact hv
                  · rw [if_neg hi0]
                    rw [pyIndex_nonneg words ((idx : Int) - 1) (by omega)] at hv
                    have : ((idx : Int) - 1).toNat = idx - 1 := by omega
                    rw [this] at hv
                    exact hv
      · simp only [Bool.not_eq_true] at hw
        simp only [hw, Bool.false_eq_true, if_false] at hok
        exact detectLoop_ok_adjacent words q rest (idx + 1) acc pairs hdrop2 hacc hok

/-- A matched split position is a whitespace character. -/
lemma splitCond_space (cs : List Char) (p : Nat) (h : splitCond cs p = true) :
    isPySpace (cs.getD p ' ') = true := by
  by_contra hn
  simp only [Bool.not_eq_true] at hn
  unfold splitCond at h
  rw [hn] at h
  simp at h

/-- Without `.`, `?` or a newline in the text no position matches the split
pattern. -/
lemma splitCond_false_of_no_term (cs : List Char)
    (h : ∀ c ∈ cs, c ≠ '.' ∧ c ≠ '?' ∧ c ≠ '\n') (p : Nat) : splitCond cs p = false := by
  unfold splitCond
  by_cases hp : p < cs.length
  · by_cases h1 : 1 ≤ p
    · have hlt : p - 1 < cs.length := by omega
      have hmem : cs.getD (p - 1) ' ' ∈ cs := by
        simp only [List.getD_eq_getElem?_getD, List.getElem?_eq_getElem hlt, Option.getD_some]
        exact List.getElem_mem hlt
      obtain ⟨hd, hq, hn⟩ := h _ hmem
      rw [List.getD_eq_getElem?_getD] at hd hq hn
      simp [hd, hq, hn]
    · simp [h1]
  · simp [hp]

lemma splitAux_no_split (cs : List Char) (h : ∀ p, splitCond cs p = false) :
    ∀ (l : List Char) (p : Nat) (cur : List Char),
      splitAux cs p l cur = [String.mk (cur ++ l)]
  | [], p, cur => by unfold splitAux; simp
  | c :: rest, p, cur => by
      unfold splitAux
      simp only [h p, Bool.false_eq_true, if_false]
      rw [splitAux_no_split cs h rest (p + 1) (cur ++ [c])]
      simp

/-- The segments produced by the scan, glued back with the consumed
separator characters, give back the remaining text. -/
lemma splitAux_glue (cs : List Char) :
    ∀ (l : List Char) (p : Nat) (cur : List Char), List.drop p cs = l →
      ∃ seps : List Char, (∀ c ∈ seps, isPySpace c = true) ∧
        seps.length + 1 = (splitAux cs p l cur).length ∧
        glue (splitAux cs p l cur) seps = cur ++ l
  | [], _, cur, _ => by
      refine ⟨[], by simp, ?_, ?_⟩ <;> unfold splitAux <;> simp [glue]
  | c :: rest, p, cur, hdrop => by
      have hdrop2 : List.drop (p + 1) cs = rest := by
        rw [← List.drop_drop 1 p, hdrop]
        rfl
      have hc : cs.getD p ' ' = c := by
        have hh : cs[p]? = some c := by
          rw [← List.head?_drop, hdrop]
          rfl
        simp [List.getD_eq_getElem?_getD, hh]
      by_cases hsp : splitCond cs p
      · obtain ⟨seps, hall, hlen, hglue⟩ := splitAux_glue cs rest (p + 1) [] hdrop2
        have hcsp : isPySpace c = true := hc ▸ splitCond_space cs p hsp
        refine ⟨c :: seps, ?_, ?_, ?_⟩
        · intro x hx
          rcases List.mem_cons.mp hx with h | h
          · exact h ▸ hcsp
          · exact hall x h
        · unfold splitAux
          simp only [hsp, if_true, List.length_cons]
          omega
        · unfold splitAux
          simp only [hsp, if_true, glue]
          rw [hglue]
          simp
      · simp only [Bool.not_eq_true] at hsp
        obtain ⟨seps, hall, hlen, hglue⟩ := splitAux_glue cs rest (p + 1) (cur ++ [c]) hdrop2
        refine ⟨seps, hall, ?_, ?_⟩
        · unfold splitAux
          simpa only [hsp, Bool.false_eq_true, if_false] using hlen
        · unfold splitAux
          simp only [hsp, Bool.false_eq_true, if_false]
          rw [hglue]
          simp

/-- An element of a list appears in its `selections`, paired with the list
with that (first) occurrence removed. -/
lemma mem_selections (x : String) : ∀ l : List String, x ∈ l → (x, l.erase x) ∈ selections l
  | y :: ys, hmem => by
      unfold selections
      by_cases hxy : x = y
      · subst hxy
        rw [List.erase_cons_head]
        exact List.mem_cons_self _ _
      · have hne : ¬((y == x) = true) := by simp [Ne.symm hxy]
        rw [List.erase_cons_tail hne]
        rcases List.mem_cons.mp hmem with h | h
        · exact absurd h hxy
        · exact List.mem_cons_of_mem _
            (List.mem_map.mpr ⟨(x, ys.erase x), mem_selections x ys h, rfl⟩)

/-- Every duplicate-free list drawn from `l` is one of the length-`r`
permutations of `l`. -/
lemma permsOfLen_complete : ∀ (l2 l : List String), l2.Nodup → (∀ x ∈ l2, x ∈ l) →
    l2 ∈ permsOfLen l2.length l
  | [], l, _, _ => by simp [permsOfLen]
  | x :: xs, l, hnodup, hsub => by
      simp only [List.length_cons, permsOfLen]
      rw [List.mem_flatMap]
      refine ⟨(x, l.erase x), mem_selections x l (hsub x (List.mem_cons_self x xs)), ?_⟩
      rw [List.mem_map]
      have hx_notin : x ∉ xs := (List.nodup_cons.mp hnodup).1
      have hxs_nodup : xs.Nodup := (List.nodup_cons.mp hnodup).2
      refine ⟨xs, permsOfLen_complete xs (l.erase x) hxs_nodup ?_, rfl⟩
      intro z hz
      have hzx : z ≠ x := fun h => hx_notin (h ▸ hz)
      exact (List.mem_erase_of_ne hzx).mpr (hsub z (List.mem_cons_of_mem x hz))

/-- A duplicate-free list over the four permutation pronouns has at most
four elements. -/
lemma nodup_sub_length_le (l2 : List String) (hnodup : l2.Nodup)
    (hsub : ∀ x ∈ l2, x ∈ permutation_pronouns) : l2.length ≤ 4 := by
  have h1 : l2.toFinset.card = l2.length := List.toFinset_card_of_nodup hnodup
  have h2 : l2.toFinset ⊆ permutation_pronouns.toFinset := by
    intro a ha
    exact List.mem_toFinset.mpr (hsub a (List.mem_toFinset.mp ha))
  have h3 := Finset.card_le_card h2
  have h4 : permutation_pronouns.toFinset.card = 4 := by decide
  omega

lemma splitOnCharAux_ne_nil (sep : Char) :
    ∀ (l cur : List Char), splitOnCharAux sep l cur ≠ []
  | [], cur => by unfold splitOnCharAux; simp
  | x :: xs, cur => by
      unfold splitOnCharAux
      by_cases h : x = sep
      · simp [h]
      · rw [if_neg h]
        exact splitOnCharAux_ne_nil sep xs (cur ++ [x])

/-- Splitting a string that ends in the separator yields a trailing empty
token. -/
lemma splitOnCharAux_getLast (sep : Char) :
    ∀ (l cur : List Char), l.getLast? = some sep →
      (splitOnCharAux sep l cur).getLast? = some ""
  | [], _, h => by simp at h
  | [x], cur, h => by
      have hx : x = sep := by simpa using h
      subst hx
      simp [splitOnCharAux]
  | x :: y :: ys, cur, h => by
      have h2 : (y :: ys).getLast? = some sep := by
        rwa [List.getLast?_cons_cons] at h
      unfold splitOnCharAux
      by_cases hx : x = sep
      · rw [if_pos hx]
        obtain ⟨r, rs, hr⟩ := List.exists_cons_of_ne_nil (splitOnCharAux_ne_nil sep (y :: ys) [])
        rw [hr, List.getLast?_cons_cons, ← hr]
        exact splitOnCharAux_getLast sep (y :: ys) [] h2
      · rw [if_neg hx]
        exact splitOnCharAux_getLast sep (y :: ys) (cur ++ [x]) h2

/-! ## The claims -/

/-- C1, counterexample: the sentence `"they are ok now?"` is a question
whose only pronoun token `"they"` is the first word.  The code pairs it
with `words[-1]`, the **last** word `"now?"`, which is not the token at
index−1 (no such position exists), so extraction does produce a pair whose
verb is not the claimed adjacent token. -/
theorem c1_counterexample :
    detect_subject_and_verb "they are ok now?" = .ok [⟨"they", "now?", true⟩] ∧
    specAdjacent "they are ok now?" ⟨"they", "now?", true⟩ = false := by
  constructor <;> decide

/-- C1, amended: every pair returned by extraction has its subject at some
word position `i` with lowercase form in the catalog, and its verb is the
word at `i - 1` for a question and `i + 1` for a statement — except that a
question whose pronoun is the first word takes the last word of the
sentence as the verb (Python negative indexing). -/
theorem c1_extraction_adjacency (sentence : String) (pairs : List SubjectVerbPair)
    (p : SubjectVerbPair) (hok : detect_subject_and_verb sentence = .ok pairs)
    (hmem : p ∈ pairs) : pythonAdjacent sentence p := by
  unfold detect_subject_and_verb at hok
  cases hlast : sentence.data.getLast? with
  | none => rw [hlast] at hok; cases hok
  | some c =>
      rw [hlast] at hok
      exact detectLoop_ok_adjacent (pyWords sentence) (c = '?') (pyWords sentence) 0 [] pairs
        (List.drop_zero _) (by simp) hok p hmem

theorem c1_extraction_adjacency_witness :
    pythonAdjacent "Are we ok?" ⟨"we", "Are", true⟩ :=
  c1_extraction_adjacency "Are we ok?" [⟨"we", "Are", true⟩] ⟨"we", "Are", true⟩
    (by decide) (by decide)

/-- C2: the catalog itself contains the entry `"I"`, yet the membership
test lowercases the queried token while the entry is stored in upper case,
so neither `"I"` nor `"i"` is ever recognized as a pronoun — the entry is
dead and a sentence whose only pronoun is `"I"` raises
`NoSubjectFound`.  Case-insensitivity does hold for the lowercase-stored
entries such as `"he"`. -/
theorem c2_pronoun_catalog_case_bug :
    "I" ∈ PRONOUNS ∧ is_pronoun "I" = false ∧ is_pronoun "i" = false ∧
    is_pronoun "He" = true ∧ is_pronoun "he" = true ∧ is_pronoun "hE/sHe" = true ∧
    detect_subject_and_verb "I am here." = .error noSubjectErr := by
  refine ⟨by decide, by decide, by decide, by decide, by decide, by decide, by decide⟩

/-- C3, counterexample: the empty sentence — which the segmenter can
produce — contains no pronoun token, yet extraction fails with an index
error (from `sentence[-1]`), not with `NoSubjectFound`. -/
theorem c3_counterexample :
    pyWords "" = [] ∧
    detect_subject_and_verb "" = .error .indexError ∧
    detect_subject_and_verb "" ≠ .error noSubjectErr := by
  refine ⟨by decide, by decide, by decide⟩

/-- C3, amended: for **non-empty** sentences, extraction fails with
`NoSubjectFound` iff the sentence has no token whose lowercase form is in
the catalog; and a successful `find_faulty_conjugation` run requires every
sentence of the text to have extracted successfully (failures propagate,
no sentence is silently skipped). -/
theorem c3_no_subject_found_iff (s : String) (conjugate : String → List String)
    (text : String) (hs : s ≠ "") :
    (detect_subject_and_verb s = .error noSubjectErr ↔ noPronounToken s) ∧
    (∀ res, find_faulty_conjugation conjugate text = .ok res →
      ∀ t ∈ split_by_sentences text, ∃ ps, detect_subject_and_verb t = .ok ps) := by
  constructor
  · constructor
    · intro h w hw
      by_contra hc
      simp only [Bool.not_eq_false] at hc
      unfold detect_subject_and_verb at h
      cases hlast : s.data.getLast? with
      | none => rw [hlast] at h; simp [noSubjectErr] at h
      | some c =>
          rw [hlast] at h
          exact detectLoop_ne_noSubject_of_pronoun (pyWords s) (c = '?') (pyWords s) 0 []
            ⟨w, hw, hc⟩ h
    · intro hno
      unfold detect_subject_and_verb
      cases hlast : s.data.getLast? with
      | none =>
          exfalso
          apply hs
          have hd : s.data = [] := List.getLast?_eq_none_iff.mp hlast
          cases s
          simp_all
      | some c =>
          show detectLoop (pyWords s) (decide (c = '?')) 0 (pyWords s) [] =
            Except.error noSubjectErr
          rw [detectLoop_no_pronoun (pyWords s) (decide (c = '?')) (pyWords s) 0 [] hno]
          rfl
  · intro res hok t ht
    exact findFaultyLoop_ok_detect conjugate (split_by_sentences text) [] res hok t ht

theorem c3_no_subject_found_iff_witness :
    ((detect_subject_and_verb "xyz" = .error noSubjectErr ↔ noPronounToken "xyz") ∧
      (∀ res, find_faulty_conjugation emptyOracle "We are." = .ok res →
        ∀ t ∈ split_by_sentences "We are.", ∃ ps, detect_subject_and_verb t = .ok ps)) :=
  c3_no_subject_found_iff "xyz" emptyOracle "We are." (by decide)

/-- C4: a slash-split subject token is first normalized (any casing of
`he`, `she`, `it` becomes the class string `"he/she/it"`), and the pairing
counts as valid for the token exactly when one of the lowercased candidate
phrases `"{normalized subject} {verb surface form}"` — one per slash-split
verb surface form — is a contiguous substring of some member of the
oracle's conjugated-form set for some queried verb form. -/
theorem c4_substring_validation (conjugate : String → List String) (t verbToken : String) :
    (normalizeSubject t =
      if pyLower t = "he" ∨ pyLower t = "she" ∨ pyLower t = "it" then "he/she/it" else t) ∧
    (subjectTokenValid conjugate verbToken t = true ↔
      ∃ cv ∈ splitSlash verbToken, ∃ qv ∈ splitSlash verbToken, ∃ form ∈ conjugate qv,
        (pyLower (normalizeSubject t) ++ " " ++ pyLower cv).data <:+: form.data) := by
  constructor
  · by_cases h : pyLower t = "he" ∨ pyLower t = "she" ∨ pyLower t = "it"
    · rw [if_pos h]
      unfold normalizeSubject
      rcases h with h | h | h <;> simp [h]
    · rw [if_neg h]
      push_neg at h
      obtain ⟨h1, h2, h3⟩ := h
      unfold normalizeSubject
      simp [h1, h2, h3]
  · unfold subjectTokenValid phraseInForms
    simp only [List.any_eq_true, List.mem_map, pySubstr_iff]
    constructor
    · rintro ⟨forms, ⟨qv, hqv, rfl⟩, ph, ⟨cv, hcv, rfl⟩, form, hform, hsub⟩
      exact ⟨cv, hcv, qv, hqv, form, hform, hsub⟩
    · rintro ⟨cv, hcv, qv, hqv, form, hform, hsub⟩
      exact ⟨conjugate qv, ⟨qv, hqv, rfl⟩, _, ⟨cv, hcv, rfl⟩, form, hform, hsub⟩

/-- C5: the first slash-split subject token with no matching candidate
phrase flags the pair — the remaining tokens play no role (the first
conjunct holds for **any** remaining token list `ts`) — and the flagged
pair contributes its original authored `phrase` (pre-normalization) to a
successful result set of `find_faulty_conjugation`. -/
theorem c5_one_failing_token_flags_pair (conjugate : String → List String)
    (text sentence : String) (pairs : List SubjectVerbPair) (p : SubjectVerbPair)
    (res : List String) (t : String) (ts : List String) :
    (subjectTokenValid conjugate p.verb t = false →
      checkSubjects conjugate p.verb (t :: ts) = true) ∧
    (sentence ∈ split_by_sentences text →
      detect_subject_and_verb sentence = .ok pairs → p ∈ pairs →
      (∃ u ∈ splitSlash p.subject, subjectTokenValid conjugate p.verb u = false) →
      find_faulty_conjugation conjugate text = .ok res → p.phrase ∈ res) := by
  constructor
  · intro h
    unfold checkSubjects
    simp [h]
  · intro hsent hdet hp hex hok
    have hfaulty : checkSubjects conjugate p.verb (splitSlash p.subject) = true :=
      (checkSubjects_eq_true_iff conjugate p.verb (splitSlash p.subject)).mpr hex
    exact findFaultyLoop_mem conjugate p sentence pairs (split_by_sentences text) [] res
      hsent hdet hp hfaulty hok

theorem c5_one_failing_token_flags_pair_witness :
    checkSubjects emptyOracle "are." ["We"] = true ∧ "We are." ∈ ["We are."] := by
  have h := c5_one_failing_token_flags_pair emptyOracle "We are." "We are."
    [⟨"We", "are.", false⟩] ⟨"We", "are.", false⟩ ["We are."] "We" []
  exact ⟨h.1 (by decide),
    h.2 (by decide) (by decide) (by decide) ⟨"We", by decide, by decide⟩ (by decide)⟩

/-- C6: a text containing none of the boundary-triggering characters `.`,
`?`, newline is returned as a single segment equal to the whole input. -/
theorem c6_no_terminator_single_sentence (text : String)
    (h : ∀ c ∈ text.data, c ≠ '.' ∧ c ≠ '?' ∧ c ≠ '\n') :
    split_by_sentences text = [text] := by
  unfold split_by_sentences
  rw [splitAux_no_split text.data (splitCond_false_of_no_term text.data h) text.data 0 []]
  rfl

theorem c6_no_terminator_single_sentence_witness :
    split_by_sentences "We are happy" = ["We are happy"] :=
  c6_no_terminator_single_sentence "We are happy" (by decide)

/-- C7: splitting is lossless — the segments, glued back with one
whitespace character per boundary (the character the splitter consumed),
reconstruct the input text character for character. -/
theorem c7_split_lossless (text : String) :
    ∃ seps : List Char, (∀ c ∈ seps, isPySpace c = true) ∧
      seps.length + 1 = (split_by_sentences text).length ∧
      glue (split_by_sentences text) seps = text.data := by
  obtain ⟨seps, h1, h2, h3⟩ := splitAux_glue text.data text.data 0 [] (List.drop_zero _)
  exact ⟨seps, h1, h2, by simpa using h3⟩

/-- C8: every duplicate-free list of length ≥ 2 over the ordered set
{he, she, they, it}, joined with `"/"` in its own order, is in the pronoun
catalog; in particular both orders `"he/she"` and `"she/he"` are distinct
recognized entries. -/
theorem c8_permutation_catalog (l : List String) :
    (l.Nodup → (∀ x ∈ l, x ∈ permutation_pronouns) → 2 ≤ l.length →
      pyJoin "/" l ∈ PRONOUNS) ∧
    "he/she" ∈ PRONOUNS ∧ "she/he" ∈ PRONOUNS ∧ "it/he/she" ∈ PRONOUNS := by
  refine ⟨?_, by decide, by decide, by decide⟩
  intro hnodup hsub h2
  have hle := nodup_sub_length_le l hnodup hsub
  have hmem := permsOfLen_complete l permutation_pronouns hnodup hsub
  unfold PRONOUNS
  rw [List.mem_append]
  right
  rw [List.mem_flatMap]
  refine ⟨l.length, ?_, List.mem_map.mpr ⟨l, hmem, rfl⟩⟩
  rw [List.mem_range']
  exact ⟨l.length - 2, by omega, by omega⟩

theorem c8_permutation_catalog_witness : "they/it" ∈ PRONOUNS := by
  have h := (c8_permutation_catalog ["they", "it"]).1 (by decide) (by decide) (by decide)
  simpa using h

/-- C9, counterexample: the sentence `"they is/ fine."` yields the pair
(`"they"`, `"is/"`) whose verb ends in a bare `/`.  With a deterministic
oracle holding the form `"they is"` for the query `"is"`, the candidate
phrase `"they is"` matches, so the pair is **not** reported faulty — the
extra empty verb token only adds candidates, it does not force the pair
into the faulty set as the claim states. -/
theorem c9_counterexample :
    detect_subject_and_verb "they is/ fine." = .ok [⟨"they", "is/", false⟩] ∧
    splitSlash "is/" = ["is", ""] ∧
    find_faulty_conjugation oracleTheyIs "they is/ fine." = .ok [] := by
  refine ⟨by decide, by decide, by decide⟩

/-- C9, amended: a token ending in a bare `/` is not a distinct error kind
— every error of `find_faulty_conjugation` originates in subject
detection; splitting such a token on `/` does yield an extra trailing
empty token; and the pair is reported faulty exactly when some slash-split
subject token matches no candidate phrase (so an empty **verb** surface
form, which only adds candidate phrases, need not make the pair
faulty). -/
theorem c9_empty_token_quirk (conjugate : String → List String) (text : String)
    (e : PyErr) (v : String) :
    (find_faulty_conjugation conjugate text = .error e →
      ∃ s ∈ split_by_sentences text, detect_subject_and_verb s = .error e) ∧
    (v.data.getLast? = some '/' → (splitSlash v).getLast? = some "") ∧
    (∀ verbToken tokens, checkSubjects conjugate verbToken tokens = true ↔
      ∃ t ∈ tokens, subjectTokenValid conjugate verbToken t = false) := by
  refine ⟨?_, ?_, ?_⟩
  · intro h
    exact findFaultyLoop_error conjugate e (split_by_sentences text) [] h
  · intro hlast
    exact splitOnCharAux_getLast '/' v.data [] hlast
  · exact fun vb ts => checkSubjects_eq_true_iff conjugate vb ts

theorem c9_empty_token_quirk_witness :
    (∃ s ∈ split_by_sentences "x.", detect_subject_and_verb s = .error noSubjectErr) ∧
    (splitSlash "is/").getLast? = some "" ∧
    (checkSubjects emptyOracle "are." ["We"] = true ↔
      ∃ t ∈ ["We"], subjectTokenValid emptyOracle "are." t = false) := by
  have h := c9_empty_token_quirk emptyOracle "x." noSubjectErr "is/"
  exact ⟨h.1 (by decide), h.2.1 (by decide), h.2.2 "are." ["We"]⟩

/-- C10: the segmenter turns `"We are. "` (terminator followed by one
whitespace character) into the two segments `"We are."` and `""`;
extraction on the empty sentence hits the out-of-range access
`sentence[-1]` — an index error, neither a pair list nor `NoSubjectFound`
— and consequently `find_faulty_conjugation` on that text yields no result
set, for every oracle. -/
theorem c10_empty_sentence_safety (conjugate : String → List String) :
    detect_subject_and_verb "" = .error .indexError ∧
    detect_subject_and_verb "" ≠ .error noSubjectErr ∧
    split_by_sentences "We are. " = ["We are.", ""] ∧
    find_faulty_conjugation conjugate "We are. " = .error .indexError := by
  refine ⟨by decide, by decide, by decide, ?_⟩
  have h1 : detect_subject_and_verb "We are." = .ok [⟨"We", "are.", false⟩] := by decide
  have h2 : detect_subject_and_verb "" = .error .indexError := by decide
  have hs : split_by_sentences "We are. " = ["We are.", ""] := by decide
  unfold find_faulty_conjugation
  rw [hs]
  simp only [findFaultyLoop, h1, h2]
